import Mathlib

/-!
Verification of the seat-layout / grid-binning / classification core of the
legislator-election-24 visualization repository.

The JavaScript source is shallowly embedded in Lean:
* IEEE-754 numbers are idealized as exact rationals (`ℚ`), except where the
  code can produce `Infinity`/`NaN`, which is modelled by the `JSq` type below.
* `Math.PI` is the exact rational value of the IEEE-754 double `3.141592653589793`.
* Angles `θ = Math.PI - i * (Math.PI / d)` are always rational multiples of π,
  so a seat stores `thetaPi = θ/π : ℚ`; comparisons of `θ` agree with
  comparisons of `θ/π` because π > 0.
* `Array.prototype.sort` (stable since ES2019) is modelled by `List.mergeSort`,
  which is a stable sort.
* JavaScript array reads out of bounds produce `undefined`; where this matters
  (the Jenks extraction, the party fill loops) it is modelled explicitly with
  `Option` / bound checks.
-/

/-! ## Model of JavaScript numbers where non-finite values can occur -/

/-- Model of a JavaScript IEEE-754 number: an exact rational, `Infinity`,
`-Infinity`, or `NaN`.  Finite arithmetic is idealized as exact (no rounding,
no overflow), which is sound for the magnitudes appearing in this program. -/
inductive JSq where
  | fin (q : ℚ)
  | inf
  | ninf
  | nan
deriving Repr, DecidableEq

/-- JavaScript addition on the `JSq` model. -/
def JSq.add : JSq → JSq → JSq
  | nan, _ => nan
  | _, nan => nan
  | fin a, fin b => fin (a + b)
  | fin _, inf => inf
  | inf, fin _ => inf
  | fin _, ninf => ninf
  | ninf, fin _ => ninf
  | inf, inf => inf
  | ninf, ninf => ninf
  | inf, ninf => nan
  | ninf, inf => nan

/-- JavaScript subtraction on the `JSq` model. -/
def JSq.sub : JSq → JSq → JSq
  | nan, _ => nan
  | _, nan => nan
  | fin a, fin b => fin (a - b)
  | fin _, inf => ninf
  | inf, fin _ => inf
  | fin _, ninf => inf
  | ninf, fin _ => ninf
  | inf, inf => nan
  | ninf, ninf => nan
  | inf, ninf => inf
  | ninf, inf => ninf

/-- JavaScript multiplication on the `JSq` model; note `0 * Infinity = NaN`. -/
def JSq.mul : JSq → JSq → JSq
  | nan, _ => nan
  | _, nan => nan
  | fin a, fin b => fin (a * b)
  | fin a, inf => if 0 < a then inf else if a < 0 then ninf else nan
  | inf, fin b => if 0 < b then inf else if b < 0 then ninf else nan
  | fin a, ninf => if 0 < a then ninf else if a < 0 then inf else nan
  | ninf, fin b => if 0 < b then ninf else if b < 0 then inf else nan
  | inf, inf => inf
  | ninf, ninf => inf
  | inf, ninf => ninf
  | ninf, inf => ninf

/-- JavaScript division on the `JSq` model; note `x / 0 = ±Infinity` for
`x ≠ 0` and `0 / 0 = NaN`. -/
def JSq.div : JSq → JSq → JSq
  | nan, _ => nan
  | _, nan => nan
  | fin a, fin b =>
      if b = 0 then (if a = 0 then nan else if 0 < a then inf else ninf)
      else fin (a / b)
  | fin _, inf => fin 0
  | fin _, ninf => fin 0
  | inf, fin b => if 0 ≤ b then inf else ninf
  | ninf, fin b => if 0 ≤ b then ninf else inf
  | inf, inf => nan
  | ninf, ninf => nan
  | inf, ninf => nan
  | ninf, inf => nan

/-- Whether a `JSq` value is a finite number (`Number.isFinite`). -/
def JSq.isFin : JSq → Bool
  | fin _ => true
  | _ => false

/-- `Math.round`: rounds half toward +∞ on finite values. -/
def jsRound : JSq → JSq
  | JSq.fin q => JSq.fin ((⌊q + 1/2⌋ : ℤ) : ℚ)
  | JSq.inf => JSq.inf
  | JSq.ninf => JSq.ninf
  | JSq.nan => JSq.nan

/-- `d3.sum`: sums the values that are numbers, skipping `NaN`
(d3 tests `value = +value`, which is falsy for `NaN`; skipping `0` as d3 also
does is adding the additive identity, hence unobservable). -/
def d3sum (l : List JSq) : JSq :=
  l.foldl (fun acc v => if v = JSq.nan then acc else JSq.add acc v) (JSq.fin 0)

/-- Exact rational value of the IEEE-754 double `Math.PI`
(`3.141592653589793` = `884279719003555 / 2^48`). -/
def piQ : ℚ := 884279719003555 / 281474976710656

/-! ## GridBinner (`drawHexGridOnly` in MapTab) -/

/-- Layout configuration computed and stored in `gridLayoutConfig` by
`drawHexGridOnly`. -/
structure GridLayoutConfig where
  minX : ℤ
  maxX : ℤ
  minY : ℤ
  maxY : ℤ
  cellSize : ℚ
  offsetX : ℚ
  offsetY : ℚ
deriving Repr, DecidableEq

/-- The layout computation of `drawHexGridOnly`: given the grid cells that have
finite `grid_x`/`grid_y` (already filtered, here the input list), the SVG
viewport size and the padding, either fail (the source sets
`gridLayoutConfig = null` and returns) or produce a `GridLayoutConfig`.
The source's `Number.isFinite` checks on the viewport are vacuous over `ℚ`;
the `=== 0` viewport checks and the `cellSize` guard are kept verbatim. -/
def computeLayout (cells : List (ℤ × ℤ)) (svgWidth svgHeight padding : ℚ) :
    Option GridLayoutConfig :=
  match cells with
  | [] => none
  | c :: cs =>
      let minX := cs.foldl (fun m p => min m p.1) c.1
      let maxX := cs.foldl (fun m p => max m p.1) c.1
      let minY := cs.foldl (fun m p => min m p.2) c.2
      let maxY := cs.foldl (fun m p => max m p.2) c.2
      if svgWidth = 0 ∨ svgHeight = 0 then none
      else
        let availableWidth := max (svgWidth - padding * 2) 0
        let availableHeight := max (svgHeight - padding * 2) 0
        let rangeX : ℤ := max (maxX - minX + 1) 1
        let rangeY : ℤ := max (maxY - minY + 1) 1
        let cellSize := min (availableWidth / (rangeX : ℚ)) (availableHeight / (rangeY : ℚ))
        if cellSize ≤ 0 then none
        else
          let actualWidth := cellSize * (rangeX : ℚ)
          let actualHeight := cellSize * (rangeY : ℚ)
          some { minX := minX, maxX := maxX, minY := minY, maxY := maxY,
                 cellSize := cellSize,
                 offsetX := (svgWidth - actualWidth) / 2,
                 offsetY := (svgHeight - actualHeight) / 2 }

/-- Pixel position of a cell (`x`/`y` attributes of the rect in
`drawHexGridOnly`): `x = offsetX + (gridX − minX)·cellSize`,
`y = offsetY + (maxY − gridY)·cellSize`. -/
def cellToPixel (cell : ℤ × ℤ) (cfg : GridLayoutConfig) : ℚ × ℚ :=
  (cfg.offsetX + ((cell.1 - cfg.minX : ℤ) : ℚ) * cfg.cellSize,
   cfg.offsetY + ((cfg.maxY - cell.2 : ℤ) : ℚ) * cfg.cellSize)

/-! ## Vote median (`drawBarChart` in BarView2) -/

/-- Median computation from `drawBarChart`: sort a copy ascending with
`(a, b) => a - b`; an even-length list yields the mean of the two middle
elements, an odd-length list the middle element, an empty list `0`. -/
def medianVotes (votes : List ℚ) : ℚ :=
  let sorted := votes.mergeSort (fun a b => a ≤ b)
  if 0 < sorted.length then
    if sorted.length % 2 = 0 then
      (sorted.getD (sorted.length / 2 - 1) 0 + sorted.getD (sorted.length / 2) 0) / 2
    else sorted.getD (sorted.length / 2) 0
  else 0

/-! ## Circular seat radius (`drawParliamentSeats`) -/

/-- The manually tuned area scale divisor of MapTab (`areaDivisor = 18`). -/
def areaDivisor : ℚ := 18

/-- Visual radius of a seat circle in `drawParliamentSeats`: when the seat has
a positive vote count, `Math.sqrt(votes / (areaDivisor * Math.PI))`; a zero or
missing (`undefined`, modelled by `none`) vote count falls back to the default
`baseRadius` (the source guard `seat.votes && seat.votes > 0`). -/
noncomputable def seatRadius (votes : Option ℚ) (baseRadius : ℝ) : ℝ :=
  match votes with
  | some v => if 0 < v then Real.sqrt ((v : ℝ) / ((areaDivisor : ℝ) * Real.pi)) else baseRadius
  | none => baseRadius

/-! ## SeatLayoutEngine (`generateParliamentSeats` in MapTab) -/

/-- One generated seat: the row radius `r` (kept as a JavaScript number, since
the one-row case divides by zero when computing the radii), the angle as
`θ/π`, the row index, and the seat number.  The Cartesian projections
`x = r·cos θ`, `y = r·sin θ` of the source are not stored: `cos`/`sin` of a
finite angle are finite and the angle is always finite, so `x`/`y` are finite
exactly when `r` is, and no claim depends on their transcendental values. -/
structure Seat where
  r : JSq
  thetaPi : ℚ
  row : ℕ
  number : ℕ
deriving Repr, DecidableEq

/-- Radius interpolation step `(outerRadius - innerRadius) / (rowCount - 1)`
of `generateParliamentSeats` (a JavaScript division, so `rowCount = 1` gives
`Infinity` or `NaN`). -/
def seatStep (innerRadius outerRadius : ℚ) (rowCount : ℕ) : JSq :=
  JSq.div (JSq.fin (outerRadius - innerRadius)) (JSq.fin ((rowCount : ℚ) - 1))

/-- Row radii `radii[i] = innerRadius + i * step` for `i < rowCount`. -/
def seatRadii (innerRadius outerRadius : ℚ) (rowCount : ℕ) : List JSq :=
  (List.range rowCount).map fun i : ℕ =>
    JSq.add (JSq.fin innerRadius)
      (JSq.mul (JSq.fin ((i : ℕ) : ℚ)) (seatStep innerRadius outerRadius rowCount))

/-- The `arcLengths.map((len, i) => ...)` allocation loop: every row but the
last receives `Math.round(totalSeats * (len / totalArcLength))` and is added
to the closed-over `seatsAllocated`; the row with index `rowCount - 1`
receives `totalSeats - seatsAllocated`, absorbing all rounding drift. -/
def allocRowsGo (totalSeats : ℚ) (rowCount : ℕ) (totalArc : JSq) :
    List JSq → ℕ → JSq → List JSq
  | [], _, _ => []
  | len :: rest, i, alloc =>
    if i = rowCount - 1 then
      JSq.sub (JSq.fin totalSeats) alloc ::
        allocRowsGo totalSeats rowCount totalArc rest (i + 1) alloc
    else
      let count := jsRound (JSq.mul (JSq.fin totalSeats) (JSq.div len totalArc))
      count :: allocRowsGo totalSeats rowCount totalArc rest (i + 1) (JSq.add alloc count)

/-- Per-row seat counts of `generateParliamentSeats`. -/
def allocRows (totalSeats : ℚ) (rowCount : ℕ) (arcs : List JSq) (totalArc : JSq) :
    List JSq :=
  allocRowsGo totalSeats rowCount totalArc arcs 0 (JSq.fin 0)

/-- The seats of one row: the loop `for (let i = 0; i < count; i++)` runs
`⌈count⌉` times for a positive finite bound and not at all for a `NaN` or
non-positive bound (an `Infinity` bound, which would not terminate in
JavaScript, cannot arise for the inputs considered here).  The angle step is
`Math.PI / (count - 1 || 1)` and `θ_i = π - i·angleStep`, stored as `θ/π`. -/
def rowSeats (r : JSq) (rowIndex : ℕ) (count : JSq) : List Seat :=
  match count with
  | JSq.fin q =>
      let d : ℚ := if q - 1 = 0 then 1 else q - 1
      (List.range (⌈q⌉).toNat).map fun i : ℕ =>
        { r := r, thetaPi := 1 - ((i : ℕ) : ℚ) / d, row := rowIndex, number := 0 }
  | _ => []

/-- The `rowCounts.forEach((count, rowIndex) => ...)` loop: concatenates the
rows, reading `radii[rowIndex]` for each. -/
def buildSeatsGo (radii : List JSq) : List JSq → ℕ → List Seat
  | [], _ => []
  | c :: rest, i => rowSeats (radii.getD i JSq.nan) i c ++ buildSeatsGo radii rest (i + 1)

/-- The `seats.forEach((seat, index) => seat.number = index + 1)` loop. -/
def numberSeats : ℕ → List Seat → List Seat
  | _, [] => []
  | n, s :: rest => { s with number := n } :: numberSeats (n + 1) rest

/-- `generateParliamentSeats(totalSeats, rowCount, innerRadius, outerRadius)`:
row radii, arc lengths `π·r`, proportional per-row allocation with the last
row absorbing rounding, per-row angular placement, then a stable sort by
descending angle (`(a, b) => b.theta - a.theta`) and 1-based numbering. -/
def generateParliamentSeats (totalSeats : ℚ) (rowCount : ℕ)
    (innerRadius outerRadius : ℚ) : List Seat :=
  let radii := seatRadii innerRadius outerRadius rowCount
  let arcLengths := radii.map fun r => JSq.mul (JSq.fin piQ) r
  let totalArcLength := d3sum arcLengths
  let rowCounts := allocRows totalSeats rowCount arcLengths totalArcLength
  let seats := buildSeatsGo radii rowCounts 0
  let sorted := seats.mergeSort fun a b => b.thetaPi ≤ a.thetaPi
  numberSeats 1 sorted

/-- Whether a JavaScript value is a finite number whose value is a
non-negative integer (used to state when every row receives a well-formed
seat count). -/
def jsIsNatInt (c : JSq) : Bool :=
  match c with
  | JSq.fin q => q.den = 1 && 0 ≤ q
  | _ => false

/-- The row seat-count list of `generateParliamentSeats` as a standalone
definition (so that hypotheses can refer to it). -/
def seatRowCounts (totalSeats : ℚ) (rowCount : ℕ) (innerRadius outerRadius : ℚ) :
    List JSq :=
  let radii := seatRadii innerRadius outerRadius rowCount
  let arcLengths := radii.map fun r => JSq.mul (JSq.fin piQ) r
  allocRows totalSeats rowCount arcLengths (d3sum arcLengths)

/-- The rational value of a finite JavaScript number (0 for non-finite ones);
a measure used to state the row-count bookkeeping. -/
def jsFinVal : JSq → ℚ
  | JSq.fin q => q
  | _ => 0

/-- Sum of the finite values of a list of JavaScript numbers. -/
def sumFin (l : List JSq) : ℚ := (l.map jsFinVal).sum

/-! ## Party assignment (`drawParliamentSeats`) -/

/-- The three parties of `partyData`, in source order: `無黨籍` (IND),
`民進黨` (DPP), `國民黨` (KMT). -/
inductive PartyId where
  | IND
  | DPP
  | KMT
deriving Repr, DecidableEq

/-- JavaScript test `finalData[i] === null` for a possibly out-of-range index
(an out-of-range read yields `undefined`, which is not `=== null`). -/
def jsIsNull (arr : List (Option PartyId)) (i : ℤ) : Bool :=
  if 0 ≤ i ∧ i < (arr.length : ℤ) then
    decide (arr.getD i.toNat (some PartyId.IND) = none)
  else false

/-- Centre block loop: `for (i = 0; i < count; i++) { seatIndex = start + i;
if (seatIndex >= 0 && seatIndex < len) finalData[seatIndex] = centre party }`. -/
def fillCenter (p : PartyId) (arr : List (Option PartyId)) (start : ℤ)
    (count : ℕ) : List (Option PartyId) :=
  (List.range count).foldl (fun a (i : ℕ) =>
    let seatIndex := start + ((i : ℕ) : ℤ)
    if 0 ≤ seatIndex ∧ seatIndex < (a.length : ℤ) then a.set seatIndex.toNat (some p)
    else a) arr

/-- Leftward fill loop: `for (i = start - 1; i >= 0; i--) if (finalData[i] ===
null && sn <= count) { finalData[i] = p; sn++ }`.  The third argument is the
number of remaining iterations; the index processed next is one less. -/
def fillLeft (p : PartyId) (count : ℕ) : List (Option PartyId) → ℕ → ℕ → List (Option PartyId)
  | arr, _, 0 => arr
  | arr, sn, i + 1 =>
    if jsIsNull arr i ∧ sn ≤ count then fillLeft p count (arr.set i (some p)) (sn + 1) i
    else fillLeft p count arr sn i

/-- Rightward fill loop: `for (j = start + c0; j < len; j++) if (finalData[j]
=== null && sn <= count) { finalData[j] = p; sn++ }`, with the remaining
iteration count passed as fuel. -/
def fillRight (p : PartyId) (count : ℕ) : List (Option PartyId) → ℕ → ℤ → ℕ → List (Option PartyId)
  | arr, _, _, 0 => arr
  | arr, sn, j, fuel + 1 =>
    if jsIsNull arr j ∧ sn ≤ count then
      fillRight p count (arr.set j.toNat (some p)) (sn + 1) (j + 1) fuel
    else fillRight p count arr sn (j + 1) fuel

/-- The centre-outward three-party block assignment of `drawParliamentSeats`,
parameterised by the centre start index: `finalData` starts as `n` nulls, the
first party (IND, `c0` seats) is placed at `start .. start+c0-1` (with bound
checks), the second (DPP, `c1` seats) fills leftward from `start-1`, the third
(KMT, `c2` seats) fills rightward from `start+c0` to the end. -/
def assignPartySeats (n : ℕ) (c0 c1 c2 : ℕ) (start : ℤ) : List (Option PartyId) :=
  let arr0 : List (Option PartyId) := List.replicate n none
  let arr1 := fillCenter PartyId.IND arr0 start c0
  let arr2 := fillLeft PartyId.DPP c1 arr1 1 start.toNat
  fillRight PartyId.KMT c2 arr2 1 (start + (c0 : ℤ)) (((n : ℤ) - (start + (c0 : ℤ))).toNat)

/-- The hardcoded centre start index of the source:
`indStartIndex = Math.floor(seatCoords.length / 2) - 1`. -/
def indStartIndex (n : ℕ) : ℤ := ((n / 2 : ℕ) : ℤ) - 1

/-- `finalData.filter((d) => d !== null)` — the seat data subsequently bound
to candidates and rendered; unassigned seats are removed here. -/
def drawSeatsData (n c0 c1 c2 : ℕ) (start : ℤ) : List PartyId :=
  (assignPartySeats n c0 c1 c2 start).filterMap id

/-! ## Candidate-to-seat binding (`drawParliamentSeats`) -/

/-- A seat as seen by the per-party binding step (only `row` and the angle
matter to it). -/
structure PartySeat where
  row : ℕ
  thetaPi : ℚ
deriving Repr, DecidableEq

/-- A candidate record (name and vote count). -/
structure Candidate where
  name : String
  votes : ℚ
deriving Repr, DecidableEq

/-- A seat after candidate binding. -/
structure BoundSeat where
  seat : PartySeat
  candidateName : String
  rank : ℕ
  votes : ℚ
deriving Repr, DecidableEq

/-- The per-party sort comparator: row descending (`b.row - a.row`), and for
equal rows distance of θ from π/2 ascending (`|a.theta - π/2| - |b.theta -
π/2|`), compared via `θ/π` and `1/2`, which is equivalent since π > 0. -/
def seatOrder (a b : PartySeat) : Bool :=
  if a.row ≠ b.row then b.row < a.row
  else |a.thetaPi - 1/2| ≤ |b.thetaPi - 1/2|

/-- The candidate assignment loop `seats.forEach((seat, index) => ...)`: the
`index`-th sorted seat receives the `index`-th candidate (name, vote count)
when one exists, otherwise a placeholder name `編號(index+1)` and zero votes;
either way its within-party `rank` is `index + 1`. -/
def bindGo (cands : List Candidate) : ℕ → List PartySeat → List BoundSeat
  | _, [] => []
  | i, s :: rest =>
    (if i < cands.length then
       { seat := s, candidateName := (cands.getD i ⟨"", 0⟩).name, rank := i + 1,
         votes := (cands.getD i ⟨"", 0⟩).votes }
     else
       { seat := s, candidateName := "編號" ++ toString (i + 1), rank := i + 1,
         votes := 0 }) :: bindGo cands (i + 1) rest

/-- Candidate-to-seat binding for one party's block: stable sort of the
block's seats by `seatOrder`, then the assignment loop. -/
def bindCandidates (seats : List PartySeat) (cands : List Candidate) :
    List BoundSeat :=
  bindGo cands 0 (seats.mergeSort fun a b => seatOrder a b)

/-! ## Jenks natural breaks (`jenksNaturalBreaks` in MapTab) -/

/-- 2-D array write `m[i][j] = v` on a list of rows. -/
def set2D {α : Type} (m : List (List α)) (i j : ℕ) (v : α) : List (List α) :=
  m.set i ((m.getD i []).set j v)

/-- 2-D array read `m[i][j]` with an explicit fallback (never used in range). -/
def get2D {α : Type} (m : List (List α)) (i j : ℕ) (d : α) : α :=
  (m.getD i []).getD j d

/-- The two matrices of `jenksNaturalBreaks`: `matrix` (variance combinations,
with `Infinity` modelled as `⊤`) and `lowerClassLimit`. -/
structure JenksMats where
  mat : List (List (WithTop ℚ))
  lcl : List (List ℤ)
deriving Repr, DecidableEq

/-- Matrix initialisation of `jenksNaturalBreaks`: both matrices are
`(dataLength+1) × (nClasses+1)` zero matrices; then for `i = 1..nClasses`,
`matrix[0][i] = 1`, `lowerClassLimit[0][i] = 0`, and `matrix[j][i] = Infinity`
for `j = 1..dataLength`. -/
def jenksInit (n nC : ℕ) : JenksMats :=
  let mat0 := List.replicate (n + 1) (List.replicate (nC + 1) ((0 : ℚ) : WithTop ℚ))
  let lcl0 := List.replicate (n + 1) (List.replicate (nC + 1) (0 : ℤ))
  (List.range' 1 nC).foldl (fun ms i =>
    let mat1 := set2D ms.mat 0 i ((1 : ℚ) : WithTop ℚ)
    let lcl1 := set2D ms.lcl 0 i 0
    let mat2 := (List.range' 1 n).foldl (fun m j => set2D m j i ⊤) mat1
    ⟨mat2, lcl1⟩) ⟨mat0, lcl0⟩

/-- State of the inner `m` loop of the DP: running sum, sum of squares, count
`w`, the last computed variance, and the matrices. -/
structure JenksInner where
  sum : ℚ
  sumSquares : ℚ
  w : ℕ
  variance : ℚ
  mats : JenksMats

/-- One iteration of the inner `m` loop for fixed `l`: extends the running
prefix statistics with `sortedData[l - m]`, recomputes the unnormalised
variance `sumSquares - sum²/w`, and for `j = 2..nClasses` relaxes
`matrix[l][j]` with `variance + matrix[i4][j-1]` when `i4 = l - m ≠ 0`. -/
def jenksInnerStep (sortedData : List ℚ) (nC l : ℕ) (st : JenksInner) (m : ℕ) :
    JenksInner :=
  let lcli := l - m + 1
  let val := sortedData.getD (lcli - 1) 0
  let w := st.w + 1
  let sum := st.sum + val
  let sumSquares := st.sumSquares + val * val
  let variance := sumSquares - sum * sum / (w : ℚ)
  let i4 := lcli - 1
  let mats :=
    if i4 ≠ 0 then
      (List.range' 2 (nC - 1)).foldl (fun ms j =>
        if get2D ms.mat l j ⊤ ≥ (variance : WithTop ℚ) + get2D ms.mat i4 (j - 1) ⊤ then
          ⟨set2D ms.mat l j ((variance : WithTop ℚ) + get2D ms.mat i4 (j - 1) ⊤),
           set2D ms.lcl l j (lcli : ℤ)⟩
        else ms) st.mats
    else st.mats
  ⟨sum, sumSquares, w, variance, mats⟩

/-- One iteration of the outer `l` loop: run the inner loop for `m = 0..l`
(the source initialises `sum`, `sumSquares`, `w` to 0 per `l` iteration;
`variance` is declared once outside but is always written before it is read),
then set `lowerClassLimit[l][1] = 1` and `matrix[l][1] = variance`. -/
def jenksOuterStep (sortedData : List ℚ) (nC : ℕ) (ms : JenksMats) (l : ℕ) :
    JenksMats :=
  let inner := (List.range (l + 1)).foldl (jenksInnerStep sortedData nC l) ⟨0, 0, 0, 0, ms⟩
  { mat := set2D inner.mats.mat l 1 ((inner.variance : WithTop ℚ)),
    lcl := set2D inner.mats.lcl l 1 1 }

/-- The break-extraction loop `for (j = nClasses; j > 0; j--)`: it reads
`lowerClassLimit[k][j]`; when `k` is out of range the JavaScript read yields
`undefined` and the subsequent `[j]` access throws a `TypeError`.  Otherwise
`classMarkers[j-1] = sortedData[id + 1]` with `id = lowerClassLimit[k][j] - 2`
(an out-of-range data read stores `undefined`, modelled by `none`) and `k`
becomes `lowerClassLimit[k][j] - 1`. -/
def jenksExtract (lcl : List (List ℤ)) (sortedData : List ℚ) :
    ℤ → ℕ → List (Option ℚ) → Except String (List (Option ℚ))
  | _, 0, acc => Except.ok acc
  | k, j + 1, acc =>
    if 0 ≤ k ∧ k < (lcl.length : ℤ) then
      let v := (lcl.getD k.toNat []).getD (j + 1) 0
      let marker := if 0 ≤ v - 2 + 1 then sortedData[(v - 2 + 1).toNat]? else none
      jenksExtract lcl sortedData (v - 1) j (marker :: acc)
    else Except.error "TypeError"

/-- `jenksNaturalBreaks(data, nClasses)`: empty data yields `[]`; otherwise
the data is sorted ascending, `nClasses` is clamped to the data length, the
DP matrices are filled, and the class markers are extracted by backtracking
from row `dataLength` — returning either the marker array or a thrown
`TypeError`. -/
def jenksNaturalBreaks (data : List ℚ) (nClasses0 : ℕ) :
    Except String (List (Option ℚ)) :=
  if data.length = 0 then Except.ok []
  else
    let sortedData := data.mergeSort fun a b => a ≤ b
    let dataLength := data.length
    let nClasses := if nClasses0 > dataLength then dataLength else nClasses0
    let ms0 := jenksInit dataLength nClasses
    let ms := (List.range dataLength).foldl (jenksOuterStep sortedData nClasses) ms0
    jenksExtract ms.lcl sortedData (dataLength : ℤ) nClasses []

/-- Decidable equality for `Except` results (not provided by the core
library), needed to evaluate the classifier on concrete inputs. -/
instance {ε α : Type} [DecidableEq ε] [DecidableEq α] : DecidableEq (Except ε α)
  | Except.ok a, Except.ok b =>
      if h : a = b then isTrue (h ▸ rfl) else isFalse fun he => h (Except.ok.inj he)
  | Except.ok _, Except.error _ => isFalse fun h => Except.noConfusion h
  | Except.error _, Except.ok _ => isFalse fun h => Except.noConfusion h
  | Except.error e, Except.error f =>
      if h : e = f then isTrue (h ▸ rfl) else isFalse fun he => h (Except.error.inj he)

/-! # Theorems -/

/-- Helper: a `foldl` of `min` over a list is bounded by the `foldl` of `max`
over the same list when the seeds are so ordered. -/
theorem foldl_min_le_foldl_max {α : Type} (f : α → ℤ) (cs : List α) :
    ∀ a b : ℤ, a ≤ b →
      cs.foldl (fun m p => min m (f p)) a ≤ cs.foldl (fun m p => max m (f p)) b := by
  induction cs with
  | nil => intro a b h; simpa using h
  | cons c cs ih =>
      intro a b h
      simp only [List.foldl_cons]
      exact ih _ _ (le_trans (min_le_left _ _) (le_trans h (le_max_left _ _)))

/-- Claim C3: for every non-empty cell set the grid layout computes
`cellSize = min(availableWidth/rangeX, availableHeight/rangeY)` with
`rangeX = maxX-minX+1`, `rangeY = maxY-minY+1`, available dimensions being the
viewport minus padding on both sides, and the offsets centre the occupied
bounding box; for cells `{(0,0),(1,0),(0,1),(1,1)}` in a 500×500 viewport with
padding 40, `2·cellSize ≤ 420` and `offsetX = offsetY`. -/
theorem grid_layout_formula (cells : List (ℤ × ℤ)) (W H pad : ℚ)
    (cfg : GridLayoutConfig)
    (hsome : computeLayout cells W H pad = some cfg) :
    cfg.cellSize =
      min ((W - pad * 2) / ((cfg.maxX - cfg.minX + 1 : ℤ) : ℚ))
          ((H - pad * 2) / ((cfg.maxY - cfg.minY + 1 : ℤ) : ℚ)) ∧
    cfg.offsetX = (W - cfg.cellSize * ((cfg.maxX - cfg.minX + 1 : ℤ) : ℚ)) / 2 ∧
    cfg.offsetY = (H - cfg.cellSize * ((cfg.maxY - cfg.minY + 1 : ℤ) : ℚ)) / 2 ∧
    computeLayout [(0,0),(1,0),(0,1),(1,1)] 500 500 40 =
      some ⟨0, 1, 0, 1, 210, 40, 40⟩ ∧
    (210 : ℚ) * 2 ≤ 420 := by
  refine ⟨?_, ?_, ?_, by with_unfolding_all decide, by norm_num⟩ <;>
  · cases cells with
    | nil => simp [computeLayout] at hsome
    | cons c cs =>
        have hmx : cs.foldl (fun m p => min m p.1) c.1 ≤
            cs.foldl (fun m p => max m p.1) c.1 :=
          foldl_min_le_foldl_max Prod.fst cs c.1 c.1 le_rfl
        have hmy : cs.foldl (fun m p => min m p.2) c.2 ≤
            cs.foldl (fun m p => max m p.2) c.2 :=
          foldl_min_le_foldl_max Prod.snd cs c.2 c.2 le_rfl
        simp only [computeLayout] at hsome
        split at hsome
        · exact absurd hsome (by simp)
        · split at hsome
          · exact absurd hsome (by simp)
          · rename_i hW0 hguard
            obtain rfl : cfg = _ := (Option.some.inj hsome).symm
            rw [not_le] at hguard
            have hrXpos : (0 : ℚ) <
                ((max (cs.foldl (fun m p => max m p.1) c.1 -
                    cs.foldl (fun m p => min m p.1) c.1 + 1) 1 : ℤ) : ℚ) := by
              exact_mod_cast lt_of_lt_of_le Int.zero_lt_one (le_max_right _ _)
            have hrYpos : (0 : ℚ) <
                ((max (cs.foldl (fun m p => max m p.2) c.2 -
                    cs.foldl (fun m p => min m p.2) c.2 + 1) 1 : ℤ) : ℚ) := by
              exact_mod_cast lt_of_lt_of_le Int.zero_lt_one (le_max_right _ _)
            have hW : 0 < max (W - pad * 2) 0 := by
              have h1 := lt_of_lt_of_le hguard (min_le_left _ _)
              rcases div_pos_iff.mp h1 with ⟨h, _⟩ | ⟨_, h⟩
              · exact h
              · exact absurd hrXpos (not_lt.mpr h.le)
            have hH : 0 < max (H - pad * 2) 0 := by
              have h1 := lt_of_lt_of_le hguard (min_le_right _ _)
              rcases div_pos_iff.mp h1 with ⟨h, _⟩ | ⟨_, h⟩
              · exact h
              · exact absurd hrYpos (not_lt.mpr h.le)
            have hW' : max (W - pad * 2) 0 = W - pad * 2 := by
              rcases max_cases (W - pad * 2) 0 with ⟨he, _⟩ | ⟨he, _⟩
              · exact he
              · rw [he] at hW; exact absurd hW (lt_irrefl 0)
            have hH' : max (H - pad * 2) 0 = H - pad * 2 := by
              rcases max_cases (H - pad * 2) 0 with ⟨he, _⟩ | ⟨he, _⟩
              · exact he
              · rw [he] at hH; exact absurd hH (lt_irrefl 0)
            have hrX : max (cs.foldl (fun m p => max m p.1) c.1 -
                cs.foldl (fun m p => min m p.1) c.1 + 1) 1 =
                cs.foldl (fun m p => max m p.1) c.1 -
                cs.foldl (fun m p => min m p.1) c.1 + 1 := by omega
            have hrY : max (cs.foldl (fun m p => max m p.2) c.2 -
                cs.foldl (fun m p => min m p.2) c.2 + 1) 1 =
                cs.foldl (fun m p => max m p.2) c.2 -
                cs.foldl (fun m p => min m p.2) c.2 + 1 := by omega
            simp only [hW', hH', hrX, hrY]

/-- Claim C8: grid layout computation fails explicitly (sets the layout
configuration to null, i.e. returns `none`) whenever the cell set is empty or
the computed `cellSize` is non-positive (over the exact-rational model a
non-finite `cellSize` cannot arise, and the source's `Number.isFinite` guard is
vacuous) — e.g. for a zero-size viewport; whenever it does produce a layout,
the `cellSize` is strictly positive, never a NaN/Infinity or silent default. -/
theorem grid_layout_failure (cells : List (ℤ × ℤ)) (W H pad : ℚ) :
    computeLayout [] W H pad = none ∧
    (W = 0 ∨ H = 0 → computeLayout cells W H pad = none) ∧
    (∀ cfg, computeLayout cells W H pad = some cfg → 0 < cfg.cellSize) := by
  refine ⟨rfl, ?_, ?_⟩
  · intro h0
    cases cells with
    | nil => rfl
    | cons c cs => simp only [computeLayout]; rw [if_pos h0]
  · intro cfg hsome
    cases cells with
    | nil => simp [computeLayout] at hsome
    | cons c cs =>
        simp only [computeLayout] at hsome
        split at hsome
        · exact absurd hsome (by simp)
        · split at hsome
          · exact absurd hsome (by simp)
          · rename_i h0 hguard
            obtain rfl : cfg = _ := (Option.some.inj hsome).symm
            exact lt_of_not_le hguard

/-- Witness for `grid_layout_failure` at concrete inputs: the empty cell set
and a zero-width viewport yield `none`, and the 2×2 example layout has a
positive `cellSize`. -/
theorem grid_layout_failure_witness :
    computeLayout [] 500 500 40 = none ∧
    computeLayout [(0,0),(1,0)] 0 500 40 = none ∧
    (0 : ℚ) < (GridLayoutConfig.mk 0 1 0 1 210 40 40).cellSize :=
  ⟨(grid_layout_failure [] 500 500 40).1,
   (grid_layout_failure [(0,0),(1,0)] 0 500 40).2.1 (Or.inl rfl),
   (grid_layout_failure [(0,0),(1,0),(0,1),(1,1)] 500 500 40).2.2
     (GridLayoutConfig.mk 0 1 0 1 210 40 40) (by with_unfolding_all decide)⟩

/-- Witness for `grid_layout_formula` at the spec's concrete input. -/
theorem grid_layout_formula_witness :
    computeLayout [(0,0),(1,0),(0,1),(1,1)] 500 500 40 =
      some (GridLayoutConfig.mk 0 1 0 1 210 40 40) ∧
    (GridLayoutConfig.mk 0 1 0 1 210 40 40).offsetX =
      (GridLayoutConfig.mk 0 1 0 1 210 40 40).offsetY :=
  ⟨by with_unfolding_all decide,
   by
    have h := grid_layout_formula [(0,0),(1,0),(0,1),(1,1)] 500 500 40
      (GridLayoutConfig.mk 0 1 0 1 210 40 40) (by with_unfolding_all decide)
    rw [h.2.1, h.2.2.1]⟩

/-- Helper: a merge sort of rationals with the ascending comparator equals any
sorted list the input is a permutation of. -/
theorem mergeSort_eq_sorted (l s : List ℚ) (hp : l.Perm s)
    (hs : s.Sorted (· ≤ ·)) : l.mergeSort (fun a b => decide (a ≤ b)) = s := by
  have htrans : ∀ a b c : ℚ, (fun a b : ℚ => decide (a ≤ b)) a b →
      (fun a b : ℚ => decide (a ≤ b)) b c → (fun a b : ℚ => decide (a ≤ b)) a c := by
    intro a b c h1 h2
    simp only [decide_eq_true_eq] at h1 h2 ⊢
    exact le_trans h1 h2
  have htotal : ∀ a b : ℚ, ((fun a b : ℚ => decide (a ≤ b)) a b ||
      (fun a b : ℚ => decide (a ≤ b)) b a) := by
    intro a b
    simpa using le_total a b
  have hsorted := List.sorted_mergeSort htrans htotal l
  have hsorted' : (l.mergeSort (fun a b => decide (a ≤ b))).Sorted (· ≤ ·) :=
    List.Pairwise.imp (fun h => by simpa using h) hsorted
  exact List.eq_of_perm_of_sorted ((List.mergeSort_perm l _).trans hp) hsorted' hs

/-- Claim C10: the per-group vote median of the bar chart sorts the votes
ascending; an odd-length list yields the middle element, an even-length
non-empty list the arithmetic mean of the two middle elements, an empty list
yields 0. Stated against any sorted permutation `s` of the input. -/
theorem median_votes_formula (l s : List ℚ) (hp : l.Perm s)
    (hs : s.Sorted (· ≤ ·)) :
    (l = [] → medianVotes l = 0) ∧
    (s.length % 2 = 1 → medianVotes l = s.getD (s.length / 2) 0) ∧
    (s ≠ [] → s.length % 2 = 0 →
      medianVotes l = (s.getD (s.length / 2 - 1) 0 + s.getD (s.length / 2) 0) / 2) := by
  have hms : l.mergeSort (fun a b => decide (a ≤ b)) = s := mergeSort_eq_sorted l s hp hs
  simp only [medianVotes, hms]
  refine ⟨?_, ?_, ?_⟩
  · intro h
    subst h
    have : s = [] := (List.Perm.nil_eq hp).symm
    subst this
    simp
  · intro hodd
    have hpos : 0 < s.length := by omega
    rw [if_pos hpos, if_neg (by omega)]
  · intro hne heven
    have hpos : 0 < s.length := List.length_pos.mpr hne
    rw [if_pos hpos, if_pos heven]

/-- Witness for `median_votes_formula`: the median of `[3, 1, 2]` is the middle
element 2 of its sorted permutation `[1, 2, 3]`. -/
theorem median_votes_formula_witness :
    ([3, 1, 2] : List ℚ).Perm [1, 2, 3] ∧ medianVotes [3, 1, 2] = 2 :=
  ⟨by decide,
   by
    have h := (median_votes_formula [3, 1, 2] [1, 2, 3] (by decide) (by decide)).2.1
      (by decide)
    simpa using h⟩

/-- Claim C6: in the circular-seat variant, a seat with positive vote count has
visual radius `sqrt(votes / (areaDivisor·π))`, so the circle area is
proportional to the vote count and doubling the votes multiplies the radius by
`√2`; zero or missing votes yield the constant default radius. -/
theorem seat_radius_area (v : ℚ) (b : ℝ) (hv : 0 < v) :
    seatRadius (some v) b = Real.sqrt ((v : ℝ) / ((areaDivisor : ℝ) * Real.pi)) ∧
    seatRadius (some v) b ^ 2 * ((areaDivisor : ℝ) * Real.pi) = (v : ℝ) ∧
    seatRadius (some (2 * v)) b = Real.sqrt 2 * seatRadius (some v) b ∧
    seatRadius (some 0) b = b ∧
    seatRadius none b = b := by
  have hpi : (0 : ℝ) < (areaDivisor : ℝ) * Real.pi := by
    have : (0 : ℝ) < (areaDivisor : ℝ) := by norm_num [areaDivisor]
    exact mul_pos this Real.pi_pos
  have hvr : (0 : ℝ) < (v : ℝ) := by exact_mod_cast hv
  have hnn : 0 ≤ (v : ℝ) / ((areaDivisor : ℝ) * Real.pi) := by positivity
  have h1 : seatRadius (some v) b =
      Real.sqrt ((v : ℝ) / ((areaDivisor : ℝ) * Real.pi)) := by
    simp [seatRadius, hv]
  refine ⟨h1, ?_, ?_, by simp [seatRadius], rfl⟩
  · rw [h1, Real.sq_sqrt hnn, div_mul_cancel₀ _ (ne_of_gt hpi)]
  · have h2v : (0 : ℚ) < 2 * v := by positivity
    have h2 : seatRadius (some (2 * v)) b =
        Real.sqrt (((2 * v : ℚ) : ℝ) / ((areaDivisor : ℝ) * Real.pi)) := by
      simp [seatRadius, h2v]
    rw [h2, h1]
    have : (((2 * v : ℚ)) : ℝ) / ((areaDivisor : ℝ) * Real.pi) =
        2 * ((v : ℝ) / ((areaDivisor : ℝ) * Real.pi)) := by
      push_cast
      ring
    rw [this, Real.sqrt_mul (by norm_num : (0:ℝ) ≤ 2)]

/-- Witness for `seat_radius_area` at `votes = 2`, `baseRadius = 5`. -/
theorem seat_radius_area_witness :
    (0 : ℚ) < 2 ∧
    (seatRadius (some 2) 5 ^ 2 * ((areaDivisor : ℝ) * Real.pi) = ((2 : ℚ) : ℝ) ∧
     seatRadius (some (2 * 2)) 5 = Real.sqrt 2 * seatRadius (some 2) 5 ∧
     seatRadius none 5 = 5) :=
  ⟨by norm_num,
   (seat_radius_area 2 5 (by norm_num)).2.1,
   (seat_radius_area 2 5 (by norm_num)).2.2.1,
   (seat_radius_area 2 5 (by norm_num)).2.2.2.2⟩

/-- Claim C9 (code bug): for `rowCount = 1` the source computes
`step = (outerRadius - innerRadius) / 0`, which is `Infinity` (or `NaN` when
the radii coincide), and then `radii[0] = innerRadius + 0·step = NaN`, so each
seat of a one-row layout carries a `NaN` radius (hence `NaN` coordinates)
instead of lying at the finite radius `innerRadius`: evaluated at
`generateParliamentSeats(3, 1, 60, 260)`. -/
theorem one_row_radius_nan :
    seatStep 60 260 1 = JSq.inf ∧
    seatStep 60 60 1 = JSq.nan ∧
    seatRadii 60 260 1 = [JSq.nan] ∧
    (generateParliamentSeats 3 1 60 260).length = 3 ∧
    (generateParliamentSeats 3 1 60 260).map (fun s => s.r) =
      [JSq.nan, JSq.nan, JSq.nan] ∧
    ((generateParliamentSeats 3 1 60 260).map (fun s => s.r) =
      [JSq.fin 60, JSq.fin 60, JSq.fin 60] → False) := by
  with_unfolding_all decide

/-- Claim C1 counterexample: `totalSeats = 5`, `rowCount = 10`,
`innerRadius = outerRadius = 100` satisfy the claim's preconditions
(`totalSeats > 0`, `rowCount ∈ [1,10]`, `innerRadius > 0`,
`outerRadius ≥ innerRadius`), yet each of the nine inner rows receives
`Math.round(5 · (1/10)) = 1` seat (rounding half up), the outermost row
receives `5 - 9 = -4`, and only 9 seat positions are generated, not 5. -/
theorem seat_count_counterexample :
    (0 : ℚ) < 5 ∧ ((1 : ℕ) ≤ 10 ∧ (10 : ℕ) ≤ 10) ∧ (0 : ℚ) < 100 ∧
    (100 : ℚ) ≤ 100 ∧
    seatRowCounts 5 10 100 100 =
      [JSq.fin 1, JSq.fin 1, JSq.fin 1, JSq.fin 1, JSq.fin 1, JSq.fin 1,
       JSq.fin 1, JSq.fin 1, JSq.fin 1, JSq.fin (-4)] ∧
    (generateParliamentSeats 5 10 100 100).length = 9 ∧
    ((generateParliamentSeats 5 10 100 100).length = 5 → False) := by
  with_unfolding_all decide

/-- Helper: `numberSeats` preserves length. -/
theorem numberSeats_length (l : List Seat) :
    ∀ n, (numberSeats n l).length = l.length := by
  induction l with
  | nil => intro n; rfl
  | cons s rest ih => intro n; simp [numberSeats, ih]

/-- Helper: the seat numbers produced by `numberSeats n` are `n, n+1, ...`. -/
theorem numberSeats_map_number (l : List Seat) :
    ∀ n, (numberSeats n l).map (fun s => s.number) = List.range' n l.length := by
  induction l with
  | nil => intro n; rfl
  | cons s rest ih => intro n; simp [numberSeats, List.range'_succ, ih]

/-- Helper: `numberSeats` does not change the angles. -/
theorem numberSeats_map_thetaPi (l : List Seat) :
    ∀ n, (numberSeats n l).map (fun s => s.thetaPi) = l.map (fun s => s.thetaPi) := by
  induction l with
  | nil => intro n; rfl
  | cons s rest ih => intro n; simp [numberSeats, ih]

/-- Helper: a JavaScript value satisfying `jsIsNatInt` is a finite rational
that is a non-negative integer. -/
theorem jsIsNatInt_elim {c : JSq} (h : jsIsNatInt c = true) :
    ∃ q : ℚ, c = JSq.fin q ∧ 0 ≤ q ∧ ((⌈q⌉).toNat : ℚ) = q := by
  cases c with
  | fin q =>
      simp only [jsIsNatInt, Bool.and_eq_true, decide_eq_true_eq] at h
      obtain ⟨hden, hq⟩ := h
      have hnum : (q.num : ℚ) = q := by
        conv_rhs => rw [← Rat.num_div_den q, hden]
        simp
      have h0 : 0 ≤ q.num := Rat.num_nonneg.mpr hq
      refine ⟨q, rfl, hq, ?_⟩
      rw [← hnum, Int.ceil_intCast]
      have h1 : ((q.num.toNat : ℤ) : ℚ) = ((q.num : ℤ) : ℚ) := by
        rw [Int.toNat_of_nonneg h0]
      exact_mod_cast h1
  | inf => simp [jsIsNatInt] at h
  | ninf => simp [jsIsNatInt] at h
  | nan => simp [jsIsNatInt] at h

/-- Helper: `sumFin` on a cons. -/
theorem sumFin_cons (c : JSq) (l : List JSq) :
    sumFin (c :: l) = jsFinVal c + sumFin l := by
  simp [sumFin]

/-- Helper: one step of the allocation loop. -/
theorem allocRowsGo_cons (t : ℚ) (k : ℕ) (ta len : JSq) (rest : List JSq)
    (i : ℕ) (a : JSq) :
    allocRowsGo t k ta (len :: rest) i a =
      if i = k - 1 then
        JSq.sub (JSq.fin t) a :: allocRowsGo t k ta rest (i + 1) a
      else
        jsRound (JSq.mul (JSq.fin t) (JSq.div len ta)) ::
          allocRowsGo t k ta rest (i + 1)
            (JSq.add a (jsRound (JSq.mul (JSq.fin t) (JSq.div len ta)))) := rfl

/-- Helper: when every produced row count is a finite non-negative integer,
the outputs of the allocation loop sum to `totalSeats` minus the seats already
allocated — the last row absorbs all rounding drift by construction. -/
theorem allocRowsGo_sum (t : ℚ) (k : ℕ) (ta : JSq) :
    ∀ (arcs : List JSq) (i : ℕ) (a : ℚ), i + arcs.length = k → arcs ≠ [] →
      (allocRowsGo t k ta arcs i (JSq.fin a)).all jsIsNatInt = true →
      sumFin (allocRowsGo t k ta arcs i (JSq.fin a)) = t - a := by
  intro arcs
  induction arcs with
  | nil => intro i a h hne _; exact absurd rfl hne
  | cons len rest ih =>
      intro i a h _ hall
      cases rest with
      | nil =>
          have hik : i = k - 1 := by
            simp only [List.length_cons, List.length_nil] at h
            omega
          rw [allocRowsGo_cons, if_pos hik]
          simp [sumFin_cons, JSq.sub, jsFinVal, sumFin, allocRowsGo]
      | cons len2 rest2 =>
          have hik : ¬ i = k - 1 := by
            simp only [List.length_cons] at h
            omega
          rw [allocRowsGo_cons, if_neg hik] at hall ⊢
          simp only [List.all_cons, Bool.and_eq_true] at hall
          obtain ⟨q, hq, hq0, _⟩ := jsIsNatInt_elim hall.1
          rw [hq] at hall ⊢
          have hadd : JSq.add (JSq.fin a) (JSq.fin q) = JSq.fin (a + q) := rfl
          rw [hadd] at hall ⊢
          have hrec := ih (i + 1) (a + q)
            (by simp only [List.length_cons] at h ⊢; omega)
            (by simp) hall.2
          rw [sumFin_cons, hrec]
          simp [jsFinVal]
          ring

/-- Helper: length of one generated row for a finite count. -/
theorem rowSeats_length (r : JSq) (i : ℕ) (q : ℚ) :
    (rowSeats r i (JSq.fin q)).length = (⌈q⌉).toNat := by
  simp only [rowSeats, List.length_map, List.length_range]

/-- Helper: the total number of generated seats is the sum of the (finite,
non-negative, integral) row counts. -/
theorem buildSeatsGo_length (radii : List JSq) :
    ∀ (counts : List JSq) (i : ℕ), counts.all jsIsNatInt = true →
      ((buildSeatsGo radii counts i).length : ℚ) = sumFin counts := by
  intro counts
  induction counts with
  | nil => intro i _; simp [buildSeatsGo, sumFin]
  | cons c rest ih =>
      intro i hall
      simp only [List.all_cons, Bool.and_eq_true] at hall
      obtain ⟨q, rfl, hq0, hqc⟩ := jsIsNatInt_elim hall.1
      simp only [buildSeatsGo, List.length_append, rowSeats_length, sumFin_cons]
      push_cast
      rw [ih (i + 1) hall.2, hqc]
      simp [jsFinVal]

/-- Claim C1 (amended): under the claim's preconditions and the additional
hypothesis — forced by the counterexample `seat_count_counterexample` — that
every per-row allocation (in particular the outermost row's residual
`totalSeats − Σ rounded inner-row allocations`) is a non-negative integer,
`generateParliamentSeats` returns exactly `totalSeats` seat positions, their
`seatNumber` values are exactly `1, ..., totalSeats` in order (hence a
permutation of `{1..totalSeats}`, each appearing once), and the positions are
listed in non-increasing angle order. -/
theorem seat_generation_amended (t k : ℕ) (inn out : ℚ)
    (ht : 0 < t) (hk1 : 1 ≤ k) (hk10 : k ≤ 10) (hinn : 0 < inn)
    (hio : inn ≤ out)
    (hcounts : (seatRowCounts (t : ℚ) k inn out).all jsIsNatInt = true) :
    (generateParliamentSeats (t : ℚ) k inn out).length = t ∧
    (generateParliamentSeats (t : ℚ) k inn out).map (fun s => s.number) =
      List.range' 1 t ∧
    (generateParliamentSeats (t : ℚ) k inn out).Pairwise
      (fun a b => b.thetaPi ≤ a.thetaPi) := by
  have hgen : generateParliamentSeats (t : ℚ) k inn out =
      numberSeats 1 ((buildSeatsGo (seatRadii inn out k)
        (seatRowCounts (t : ℚ) k inn out) 0).mergeSort
          (fun a b => decide (b.thetaPi ≤ a.thetaPi))) := rfl
  -- the seat total
  have harcslen :
      (((seatRadii inn out k).map fun r => JSq.mul (JSq.fin piQ) r)).length = k := by
    simp [seatRadii]
  have harcsne :
      (((seatRadii inn out k).map fun r => JSq.mul (JSq.fin piQ) r)) ≠ [] := by
    intro hnil
    rw [hnil] at harcslen
    simp at harcslen
    omega
  have hsum : sumFin (seatRowCounts (t : ℚ) k inn out) = (t : ℚ) - 0 :=
    allocRowsGo_sum (t : ℚ) k _ _ 0 0 (by rw [harcslen]; omega) harcsne hcounts
  have hblen : ((buildSeatsGo (seatRadii inn out k)
      (seatRowCounts (t : ℚ) k inn out) 0).length : ℚ) =
      sumFin (seatRowCounts (t : ℚ) k inn out) :=
    buildSeatsGo_length _ _ 0 hcounts
  have hlen : (buildSeatsGo (seatRadii inn out k)
      (seatRowCounts (t : ℚ) k inn out) 0).length = t := by
    have : ((buildSeatsGo (seatRadii inn out k)
        (seatRowCounts (t : ℚ) k inn out) 0).length : ℚ) = (t : ℚ) := by
      rw [hblen, hsum]; ring
    exact_mod_cast this
  have hslen : ((buildSeatsGo (seatRadii inn out k)
      (seatRowCounts (t : ℚ) k inn out) 0).mergeSort
        (fun a b => decide (b.thetaPi ≤ a.thetaPi))).length = t := by
    rw [List.length_mergeSort, hlen]
  refine ⟨?_, ?_, ?_⟩
  · rw [hgen, numberSeats_length, hslen]
  · rw [hgen, numberSeats_map_number, hslen]
  · rw [hgen]
    have hsorted : ((buildSeatsGo (seatRadii inn out k)
        (seatRowCounts (t : ℚ) k inn out) 0).mergeSort
          (fun a b => decide (b.thetaPi ≤ a.thetaPi))).Pairwise
        (fun a b : Seat => decide (b.thetaPi ≤ a.thetaPi) = true) :=
      List.sorted_mergeSort
        (show ∀ a b c : Seat, decide (b.thetaPi ≤ a.thetaPi) = true →
            decide (c.thetaPi ≤ b.thetaPi) = true →
            decide (c.thetaPi ≤ a.thetaPi) = true from
          fun a b c h1 h2 =>
            decide_eq_true (le_trans (of_decide_eq_true h2) (of_decide_eq_true h1)))
        (show ∀ a b : Seat, (decide (b.thetaPi ≤ a.thetaPi) ||
            decide (a.thetaPi ≤ b.thetaPi)) = true from
          fun a b => by
            simp only [Bool.or_eq_true, decide_eq_true_eq]
            exact le_total b.thetaPi a.thetaPi)
        (buildSeatsGo (seatRadii inn out k) (seatRowCounts (t : ℚ) k inn out) 0)
    have hsorted' : ((buildSeatsGo (seatRadii inn out k)
        (seatRowCounts (t : ℚ) k inn out) 0).mergeSort
          (fun a b => decide (b.thetaPi ≤ a.thetaPi))).Pairwise
        (fun a b : Seat => b.thetaPi ≤ a.thetaPi) :=
      List.Pairwise.imp (fun h => of_decide_eq_true h) hsorted
    have hm : (((buildSeatsGo (seatRadii inn out k)
        (seatRowCounts (t : ℚ) k inn out) 0).mergeSort
          (fun a b => decide (b.thetaPi ≤ a.thetaPi))).map
            (fun s => s.thetaPi)).Pairwise (fun x y : ℚ => y ≤ x) :=
      List.pairwise_map.mpr hsorted'
    rw [← numberSeats_map_thetaPi _ 1] at hm
    exact List.pairwise_map.mp hm

/-- Witness for `seat_generation_amended` at the spec's example
`generateSeats(79, 5, 60, 260)`: the hypotheses hold, and exactly 79 seats
come out. -/
theorem seat_generation_amended_witness :
    (seatRowCounts ((79 : ℕ) : ℚ) 5 60 260).all jsIsNatInt = true ∧
    (generateParliamentSeats ((79 : ℕ) : ℚ) 5 60 260).length = 79 :=
  ⟨by with_unfolding_all decide,
   (seat_generation_amended 79 5 60 260 (by norm_num) (by norm_num)
     (by norm_num) (by norm_num) (by norm_num)
     (by with_unfolding_all decide)).1⟩

/-- Helper: one step of the centre-fill fold. -/
theorem fillCenter_succ (p : PartyId) (arr : List (Option PartyId)) (start : ℤ)
    (c : ℕ) :
    fillCenter p arr start (c + 1) =
      if 0 ≤ start + (c : ℤ) ∧ start + (c : ℤ) < ((fillCenter p arr start c).length : ℤ)
      then (fillCenter p arr start c).set (start + (c : ℤ)).toNat (some p)
      else fillCenter p arr start c := by
  unfold fillCenter
  rw [List.range_succ, List.foldl_append]
  simp

/-- Helper: the centre fill preserves length. -/
theorem fillCenter_length (p : PartyId) (arr : List (Option PartyId)) (start : ℤ) :
    ∀ count, (fillCenter p arr start count).length = arr.length := by
  intro count
  induction count with
  | zero => rfl
  | succ c ih =>
      rw [fillCenter_succ]
      split
      · rw [List.length_set, ih]
      · exact ih

/-- Helper: pointwise description of the centre fill for an in-range block. -/
theorem fillCenter_getElem (p : PartyId) (arr : List (Option PartyId)) (s : ℕ) :
    ∀ count : ℕ, s + count ≤ arr.length →
      ∀ j : ℕ, (fillCenter p arr (s : ℤ) count)[j]? =
        if s ≤ j ∧ j < s + count then some (some p) else arr[j]? := by
  intro count
  induction count with
  | zero =>
      intro _ j
      rw [if_neg (by omega)]
      rfl
  | succ c ih =>
      intro hle j
      rw [fillCenter_succ]
      have hlen : (fillCenter p arr (s : ℤ) c).length = arr.length :=
        fillCenter_length p arr (s : ℤ) c
      rw [if_pos (by constructor <;> [omega; (rw [hlen]; omega)])]
      have htn : ((s : ℤ) + (c : ℤ)).toNat = s + c := by omega
      rw [htn]
      by_cases hj : j = s + c
      · subst hj
        rw [List.getElem?_set_self (by rw [hlen]; omega), if_pos (by omega)]
      · rw [List.getElem?_set_ne (by omega), ih (by omega) j]
        by_cases h1 : s ≤ j ∧ j < s + c
        · rw [if_pos h1, if_pos (by omega)]
        · rw [if_neg h1, if_neg (by omega)]

/-- Helper: the leftward fill preserves length. -/
theorem fillLeft_length (p : PartyId) (count : ℕ) :
    ∀ (fuel : ℕ) (arr : List (Option PartyId)) (sn : ℕ),
      (fillLeft p count arr sn fuel).length = arr.length := by
  intro fuel
  induction fuel with
  | zero => intro arr sn; rfl
  | succ i ih =>
      intro arr sn
      rw [fillLeft]
      split
      · rw [ih, List.length_set]
      · exact ih arr sn

/-- Helper: pointwise description of the leftward fill: starting with all of
`[0, fuel)` null, it marks the topmost `min (count + 1 - sn) fuel` of those
indices. -/
theorem fillLeft_getElem (p : PartyId) (count : ℕ) :
    ∀ (fuel : ℕ) (arr : List (Option PartyId)) (sn : ℕ),
      fuel ≤ arr.length →
      (∀ j, j < fuel → arr[j]? = some none) →
      ∀ j : ℕ, (fillLeft p count arr sn fuel)[j]? =
        if fuel - (count + 1 - sn) ≤ j ∧ j < fuel then some (some p) else arr[j]? := by
  intro fuel
  induction fuel with
  | zero =>
      intro arr sn _ _ j
      rw [if_neg (by omega)]
      rfl
  | succ i ih =>
      intro arr sn hle hnulls j
      have hi : i < arr.length := by omega
      have hnull : arr[i]? = some none := hnulls i (by omega)
      have hisnull : jsIsNull arr (i : ℤ) = true := by
        rw [jsIsNull, if_pos (by constructor <;> omega)]
        rw [decide_eq_true_eq, List.getD_eq_getElem?_getD]
        have : ((i : ℤ)).toNat = i := by omega
        rw [this, hnull]
        rfl
      rw [fillLeft]
      by_cases hsn : sn ≤ count
      · rw [if_pos ⟨hisnull, hsn⟩]
        have hnulls' : ∀ j, j < i → (arr.set i (some p))[j]? = some none := by
          intro j hj
          rw [List.getElem?_set_ne (by omega)]
          exact hnulls j (by omega)
        rw [ih (arr.set i (some p)) (sn + 1) (by rw [List.length_set]; omega) hnulls' j]
        by_cases hj : j = i
        · subst hj
          rw [if_neg (by omega), List.getElem?_set_self hi, if_pos (by omega)]
        · rw [List.getElem?_set_ne (by omega)]
          by_cases h1 : i - (count + 1 - (sn + 1)) ≤ j ∧ j < i
          · rw [if_pos h1, if_pos (by omega)]
          · rw [if_neg h1, if_neg (by omega)]
      · rw [if_neg (by intro hand; exact hsn hand.2)]
        rw [ih arr sn (by omega) (fun j hj => hnulls j (by omega)) j]
        have hz : count + 1 - sn = 0 := by omega
        by_cases h1 : i - (count + 1 - sn) ≤ j ∧ j < i
        · exact absurd h1 (by omega)
        · rw [if_neg h1, if_neg (by omega)]

/-- Helper: the rightward fill preserves length. -/
theorem fillRight_length (p : PartyId) (count : ℕ) :
    ∀ (fuel : ℕ) (arr : List (Option PartyId)) (sn : ℕ) (j0 : ℤ),
      (fillRight p count arr sn j0 fuel).length = arr.length := by
  intro fuel
  induction fuel with
  | zero => intro arr sn j0; rfl
  | succ f ih =>
      intro arr sn j0
      rw [fillRight]
      split
      · rw [ih, List.length_set]
      · exact ih arr sn (j0 + 1)

/-- Helper: pointwise description of the rightward fill: starting with all of
`[j0, j0 + fuel)` null (and nothing beyond), it marks the first
`min (count + 1 - sn) fuel` of those indices. -/
theorem fillRight_getElem (p : PartyId) (count : ℕ) :
    ∀ (fuel : ℕ) (arr : List (Option PartyId)) (sn : ℕ) (j0 : ℕ),
      j0 + fuel = arr.length →
      (∀ j, j0 ≤ j → j < j0 + fuel → arr[j]? = some none) →
      ∀ j : ℕ, (fillRight p count arr sn (j0 : ℤ) fuel)[j]? =
        if j0 ≤ j ∧ j < j0 + min (count + 1 - sn) fuel then some (some p)
        else arr[j]? := by
  intro fuel
  induction fuel with
  | zero =>
      intro arr sn j0 _ _ j
      rw [if_neg (by omega)]
      rfl
  | succ f ih =>
      intro arr sn j0 hlen hnulls j
      have hj0 : j0 < arr.length := by omega
      have hnull : arr[j0]? = some none := hnulls j0 (by omega) (by omega)
      have hisnull : jsIsNull arr (j0 : ℤ) = true := by
        rw [jsIsNull, if_pos (by constructor <;> omega)]
        rw [decide_eq_true_eq, List.getD_eq_getElem?_getD]
        have : ((j0 : ℤ)).toNat = j0 := by omega
        rw [this, hnull]
        rfl
      rw [fillRight]
      have hcast : (j0 : ℤ) + 1 = ((j0 + 1 : ℕ) : ℤ) := by push_cast; ring
      by_cases hsn : sn ≤ count
      · rw [if_pos ⟨hisnull, hsn⟩]
        have htn : ((j0 : ℤ)).toNat = j0 := by omega
        rw [htn, hcast]
        have hnulls' : ∀ j, j0 + 1 ≤ j → j < (j0 + 1) + f →
            (arr.set j0 (some p))[j]? = some none := by
          intro j h1 h2
          rw [List.getElem?_set_ne (by omega)]
          exact hnulls j (by omega) (by omega)
        rw [ih (arr.set j0 (some p)) (sn + 1) (j0 + 1)
          (by rw [List.length_set]; omega) hnulls' j]
        by_cases hj : j = j0
        · subst hj
          rw [if_neg (by omega), List.getElem?_set_self hj0, if_pos (by omega)]
        · rw [List.getElem?_set_ne (by omega)]
          by_cases h1 : j0 + 1 ≤ j ∧ j < (j0 + 1) + min (count + 1 - (sn + 1)) f
          · rw [if_pos h1, if_pos (by omega)]
          · rw [if_neg h1, if_neg (by omega)]
      · rw [if_neg (by intro hand; exact hsn hand.2)]
        rw [hcast]
        rw [ih arr sn (j0 + 1) (by omega)
          (fun j h1 h2 => hnulls j (by omega) (by omega)) j]
        by_cases h1 : j0 + 1 ≤ j ∧ j < (j0 + 1) + min (count + 1 - sn) f
        · exact absurd h1 (by omega)
        · rw [if_neg h1, if_neg (by omega)]

/-- Helper: pointwise description of the whole three-party assignment when the
centre start index is the second party's seat count, the centre block fits,
and the rightward block fits: DPP occupies `[0, c1)`, IND `[c1, c1+c0)`, KMT
`[c1+c0, c1+c0+c2)`, and any remaining seats stay null. -/
theorem assignPartySeats_getElem (n c0 c1 c2 : ℕ) (h0 : c1 + c0 ≤ n)
    (h2 : c2 ≤ n - c1 - c0) (j : ℕ) :
    (assignPartySeats n c0 c1 c2 (c1 : ℤ))[j]? =
      if j < c1 then some (some PartyId.DPP)
      else if j < c1 + c0 then some (some PartyId.IND)
      else if j < c1 + c0 + c2 then some (some PartyId.KMT)
      else if j < n then some none
      else none := by
  have hrep : ∀ i : ℕ, (List.replicate n (none : Option PartyId))[i]? =
      if i < n then some none else none := fun i => List.getElem?_replicate
  -- centre fill
  have hC := fillCenter_getElem PartyId.IND (List.replicate n none) c1 c0
    (by rw [List.length_replicate]; omega)
  have hClen : (fillCenter PartyId.IND (List.replicate n none) (c1 : ℤ) c0).length = n := by
    rw [fillCenter_length, List.length_replicate]
  -- leftward fill
  have hLnulls : ∀ i, i < c1 →
      (fillCenter PartyId.IND (List.replicate n none) (c1 : ℤ) c0)[i]? = some none := by
    intro i hi
    rw [hC i, if_neg (by omega), hrep i, if_pos (by omega)]
  have hL := fillLeft_getElem PartyId.DPP c1 c1
    (fillCenter PartyId.IND (List.replicate n none) (c1 : ℤ) c0) 1
    (by rw [hClen]; omega) hLnulls
  have hLlen : (fillLeft PartyId.DPP c1
      (fillCenter PartyId.IND (List.replicate n none) (c1 : ℤ) c0) 1 c1).length = n := by
    rw [fillLeft_length, hClen]
  -- rightward fill
  have hRnulls : ∀ i, c1 + c0 ≤ i → i < (c1 + c0) + (n - c1 - c0) →
      (fillLeft PartyId.DPP c1
        (fillCenter PartyId.IND (List.replicate n none) (c1 : ℤ) c0) 1 c1)[i]? =
        some none := by
    intro i hi1 hi2
    rw [hL i, if_neg (by omega), hC i, if_neg (by omega), hrep i, if_pos (by omega)]
  have hR := fillRight_getElem PartyId.KMT c2 (n - c1 - c0)
    (fillLeft PartyId.DPP c1
      (fillCenter PartyId.IND (List.replicate n none) (c1 : ℤ) c0) 1 c1) 1
    (c1 + c0) (by rw [hLlen]; omega) hRnulls
  -- assemble
  have hunfold : assignPartySeats n c0 c1 c2 (c1 : ℤ) =
      fillRight PartyId.KMT c2
        (fillLeft PartyId.DPP c1
          (fillCenter PartyId.IND (List.replicate n none) (c1 : ℤ) c0) 1 c1) 1
        ((c1 + c0 : ℕ) : ℤ) (n - c1 - c0) := by
    simp only [assignPartySeats]
    have e1 : ((c1 : ℤ)).toNat = c1 := by omega
    have e2 : (c1 : ℤ) + (c0 : ℤ) = ((c1 + c0 : ℕ) : ℤ) := by push_cast; ring
    have e3 : ((n : ℤ) - ((c1 : ℤ) + (c0 : ℤ))).toNat = n - c1 - c0 := by omega
    rw [e1, e3, e2]
  rw [hunfold, hR j, hL j, hC j, hrep j]
  have hmin2 : min (c2 + 1 - 1) (n - c1 - c0) = c2 := by omega
  have hmin1 : c1 - (c1 + 1 - 1) = 0 := by omega
  rw [hmin2, hmin1]
  split_ifs <;> first | rfl | omega

/-- Helper: the assignment as an explicit block list. -/
theorem assignPartySeats_eq (n c0 c1 c2 : ℕ) (h0 : c1 + c0 ≤ n)
    (h2 : c2 ≤ n - c1 - c0) :
    assignPartySeats n c0 c1 c2 (c1 : ℤ) =
      List.replicate c1 (some PartyId.DPP) ++ List.replicate c0 (some PartyId.IND) ++
      List.replicate c2 (some PartyId.KMT) ++
      List.replicate (n - c1 - c0 - c2) (none : Option PartyId) := by
  apply List.ext_getElem?
  intro j
  rw [assignPartySeats_getElem n c0 c1 c2 h0 h2 j]
  rw [List.getElem?_append, List.getElem?_append, List.getElem?_append]
  simp only [List.length_append, List.length_replicate, List.getElem?_replicate]
  split_ifs <;> first | rfl | omega

/-- Helper: `filterMap id` on a replicated `some`. -/
theorem filterMap_id_replicate_some (k : ℕ) (x : PartyId) :
    (List.replicate k (some x)).filterMap id = List.replicate k x := by
  induction k with
  | zero => rfl
  | succ m ih => simp [List.replicate_succ, ih]

/-- Helper: `filterMap id` on a replicated `none`. -/
theorem filterMap_id_replicate_none (k : ℕ) :
    (List.replicate k (none : Option PartyId)).filterMap id = [] := by
  induction k with
  | zero => rfl
  | succ m ih => simp [List.replicate_succ, ih]

/-- Claim C2: for a seat sequence of length `totalSeats` and an ordered
allocation list (centre party `c0`, leftward party `c1`, rightward party `c2`)
whose seat counts sum to `totalSeats`, the centre-outward assignment with a
valid centre start index — the index from which the leftward fill exactly
reaches index 0, namely `c1` — assigns every seat index exactly one party: the
result is the exact block partition (DPP on `[0,c1)`, IND on `[c1,c1+c0)`, KMT
on `[c1+c0,n)`), every index holds exactly one party, none is left unassigned,
and each party receives exactly its allocated seat count. -/
theorem party_assignment_partition (n c0 c1 c2 : ℕ) (hsum : c0 + c1 + c2 = n) :
    assignPartySeats n c0 c1 c2 (c1 : ℤ) =
      List.replicate c1 (some PartyId.DPP) ++ List.replicate c0 (some PartyId.IND) ++
      List.replicate c2 (some PartyId.KMT) ∧
    (assignPartySeats n c0 c1 c2 (c1 : ℤ)).length = n ∧
    (∀ j, j < n → ∃ p : PartyId,
      (assignPartySeats n c0 c1 c2 (c1 : ℤ))[j]? = some (some p)) ∧
    (assignPartySeats n c0 c1 c2 (c1 : ℤ)).count (some PartyId.IND) = c0 ∧
    (assignPartySeats n c0 c1 c2 (c1 : ℤ)).count (some PartyId.DPP) = c1 ∧
    (assignPartySeats n c0 c1 c2 (c1 : ℤ)).count (some PartyId.KMT) = c2 := by
  have h0 : c1 + c0 ≤ n := by omega
  have h2 : c2 ≤ n - c1 - c0 := by omega
  have heq := assignPartySeats_eq n c0 c1 c2 h0 h2
  have hz : n - c1 - c0 - c2 = 0 := by omega
  rw [hz] at heq
  simp only [List.replicate_zero, List.append_nil] at heq
  refine ⟨heq, ?_, ?_, ?_, ?_, ?_⟩
  · rw [heq]
    simp only [List.length_append, List.length_replicate]
    omega
  · intro j hj
    rw [assignPartySeats_getElem n c0 c1 c2 h0 h2 j]
    by_cases hj1 : j < c1
    · exact ⟨PartyId.DPP, by rw [if_pos hj1]⟩
    · by_cases hj2 : j < c1 + c0
      · exact ⟨PartyId.IND, by rw [if_neg hj1, if_pos hj2]⟩
      · exact ⟨PartyId.KMT, by rw [if_neg hj1, if_neg hj2, if_pos (by omega)]⟩
  · rw [heq]
    simp [List.count_append, List.count_replicate]
  · rw [heq]
    simp [List.count_append, List.count_replicate]
  · rw [heq]
    simp [List.count_append, List.count_replicate]

/-- Witness for `party_assignment_partition` at the source's hardcoded case:
79 seats, centre party IND with 2 seats, DPP 38 leftward, KMT 39 rightward;
the centre start index used by the source, `indStartIndex 79 = 38`, is exactly
the valid one (`c1 = 38`). -/
theorem party_assignment_partition_witness :
    2 + 38 + 39 = 79 ∧ indStartIndex 79 = ((38 : ℕ) : ℤ) ∧
    (assignPartySeats 79 2 38 39 ((38 : ℕ) : ℤ)).count (some PartyId.KMT) = 39 :=
  ⟨by decide, by decide,
   (party_assignment_partition 79 2 38 39 (by decide)).2.2.2.2.2⟩

/-- Claim C7 counterexample: with 6 seats and allocations `2 + 2 + 1 = 5 ≠ 6`
(centre start index 2), the assignment loops do leave seat index 5 as null,
but the function immediately filters nulls out
(`finalData.filter((d) => d !== null)`) and continues: the seat data handed on
has only 5 entries and no failure marker of any kind — the unfilled seat is
silently dropped rather than surfaced to the caller. -/
theorem mismatch_drop_counterexample :
    assignPartySeats 6 2 2 1 2 =
      [some PartyId.DPP, some PartyId.DPP, some PartyId.IND, some PartyId.IND,
       some PartyId.KMT, none] ∧
    drawSeatsData 6 2 2 1 2 =
      [PartyId.DPP, PartyId.DPP, PartyId.IND, PartyId.IND, PartyId.KMT] ∧
    (drawSeatsData 6 2 2 1 2).length = 5 ∧ ((5 : ℕ) = 6 → False) := by
  decide

/-- Claim C7 (amended): when the allocation seat counts sum to less than the
seat total, the assignment array does contain `null` entries for the unfilled
seats, but the subsequent `filter((d) => d !== null)` removes them, so the
data passed on to candidate binding and rendering is simply shorter than the
seat list, with no error or null marker surfaced to any caller. -/
theorem mismatch_drop_amended (n c0 c1 c2 : ℕ) (hlt : c0 + c1 + c2 < n) :
    (assignPartySeats n c0 c1 c2 (c1 : ℤ)).count (none : Option PartyId) =
      n - (c0 + c1 + c2) ∧
    0 < (assignPartySeats n c0 c1 c2 (c1 : ℤ)).count (none : Option PartyId) ∧
    drawSeatsData n c0 c1 c2 (c1 : ℤ) =
      List.replicate c1 PartyId.DPP ++ List.replicate c0 PartyId.IND ++
      List.replicate c2 PartyId.KMT ∧
    (drawSeatsData n c0 c1 c2 (c1 : ℤ)).length = c0 + c1 + c2 ∧
    (drawSeatsData n c0 c1 c2 (c1 : ℤ)).length < n := by
  have h0 : c1 + c0 ≤ n := by omega
  have h2 : c2 ≤ n - c1 - c0 := by omega
  have heq := assignPartySeats_eq n c0 c1 c2 h0 h2
  have hcnt : (assignPartySeats n c0 c1 c2 (c1 : ℤ)).count (none : Option PartyId) =
      n - c1 - c0 - c2 := by
    rw [heq]
    simp [List.count_append, List.count_replicate]
  have hdraw : drawSeatsData n c0 c1 c2 (c1 : ℤ) =
      List.replicate c1 PartyId.DPP ++ List.replicate c0 PartyId.IND ++
      List.replicate c2 PartyId.KMT := by
    rw [drawSeatsData, heq]
    simp only [List.filterMap_append, filterMap_id_replicate_some,
      filterMap_id_replicate_none, List.append_nil]
  refine ⟨?_, ?_, hdraw, ?_, ?_⟩
  · rw [hcnt]; omega
  · rw [hcnt]; omega
  · rw [hdraw]
    simp only [List.length_append, List.length_replicate]
    omega
  · rw [hdraw]
    simp only [List.length_append, List.length_replicate]
    omega

/-- Witness for `mismatch_drop_amended` at the concrete mismatch `2+2+1 < 6`. -/
theorem mismatch_drop_amended_witness :
    2 + 2 + 1 < 6 ∧ (drawSeatsData 6 2 2 1 ((2 : ℕ) : ℤ)).length = 2 + 2 + 1 :=
  ⟨by decide, (mismatch_drop_amended 6 2 2 1 (by decide)).2.2.2.1⟩

/-- Helper: the binding loop keeps the seats, in order. -/
theorem bindGo_map_seat (cands : List Candidate) :
    ∀ (l : List PartySeat) (i : ℕ), (bindGo cands i l).map (fun b => b.seat) = l := by
  intro l
  induction l with
  | nil => intro i; rfl
  | cons s rest ih =>
      intro i
      simp only [bindGo]
      split <;> simp [ih]

/-- Helper: the ranks assigned by the binding loop are `i+1, i+2, ...`. -/
theorem bindGo_map_rank (cands : List Candidate) :
    ∀ (l : List PartySeat) (i : ℕ),
      (bindGo cands i l).map (fun b => b.rank) = List.range' (i + 1) l.length := by
  intro l
  induction l with
  | nil => intro i; rfl
  | cons s rest ih =>
      intro i
      simp only [bindGo, List.length_cons, List.range'_succ]
      split <;> simp [ih]

/-- Helper: the `j`-th bound seat pairs the `j`-th sorted seat with the
`(i+j)`-th candidate when that candidate exists. -/
theorem bindGo_getD (cands : List Candidate) (dS : PartySeat) (dB : BoundSeat)
    (dC : Candidate) :
    ∀ (l : List PartySeat) (i j : ℕ), j < l.length → i + j < cands.length →
      (bindGo cands i l).getD j dB =
        { seat := l.getD j dS, candidateName := (cands.getD (i + j) dC).name,
          rank := i + j + 1, votes := (cands.getD (i + j) dC).votes } := by
  intro l
  induction l with
  | nil => intro i j hj _; simp at hj
  | cons s rest ih =>
      intro i j hj hcj
      cases j with
      | zero =>
          have hin : i < cands.length := by omega
          simp only [bindGo, List.getD_cons_zero]
          rw [if_pos hin]
          simp only [Nat.add_zero, List.getD_eq_getElem?_getD,
            List.getElem?_eq_getElem hin]
          simp
      | succ j' =>
          simp only [bindGo, List.getD_cons_succ]
          rw [ih (i + 1) j' (by simp at hj; omega) (by omega)]
          have : i + 1 + j' = i + (j' + 1) := by omega
          rw [this]

/-- Helper: the Boolean comparator `seatOrder` decides the intended strict
ordering: row descending, then angular distance from the top ascending. -/
theorem seatOrder_true_iff (a b : PartySeat) :
    seatOrder a b = true ↔
      (b.row < a.row ∨ (a.row = b.row ∧ |a.thetaPi - 1/2| ≤ |b.thetaPi - 1/2|)) := by
  by_cases h : a.row = b.row
  · simp [seatOrder, h]
  · simp only [seatOrder, if_pos h, decide_eq_true_eq]
    constructor
    · intro hlt; exact Or.inl hlt
    · intro hor
      rcases hor with hlt | ⟨heq, _⟩
      · exact hlt
      · exact absurd heq h

/-- Claim C5: within one party's block, candidate-to-seat binding first
re-sorts the block's seats by row descending and, within equal rows, by
`|angle − π/2|` ascending (stable sort), then assigns the candidates —
pre-sorted by descending vote count — in that order: the `j`-th sorted seat
gets the `j`-th candidate's name and votes, its `rank` is `j + 1` (the 1-based
assignment order within the party), and the assigned vote counts are
non-increasing. -/
theorem candidate_binding (seats : List PartySeat) (cands : List Candidate)
    (hc : cands.Pairwise (fun a b => b.votes ≤ a.votes))
    (hlen : seats.length ≤ cands.length) :
    ((bindCandidates seats cands).map (fun b => b.seat)).Perm seats ∧
    ((bindCandidates seats cands).map (fun b => b.seat)).Pairwise
      (fun a b => b.row < a.row ∨
        (a.row = b.row ∧ |a.thetaPi - 1/2| ≤ |b.thetaPi - 1/2|)) ∧
    (bindCandidates seats cands).map (fun b => b.rank) =
      List.range' 1 seats.length ∧
    (∀ j, j < seats.length →
      ((bindCandidates seats cands).getD j ⟨⟨0, 0⟩, "", 0, 0⟩).candidateName =
        (cands.getD j ⟨"", 0⟩).name ∧
      ((bindCandidates seats cands).getD j ⟨⟨0, 0⟩, "", 0, 0⟩).votes =
        (cands.getD j ⟨"", 0⟩).votes ∧
      ((bindCandidates seats cands).getD j ⟨⟨0, 0⟩, "", 0, 0⟩).rank = j + 1) ∧
    (∀ a b, a < b → b < seats.length →
      ((bindCandidates seats cands).getD b ⟨⟨0, 0⟩, "", 0, 0⟩).votes ≤
        ((bindCandidates seats cands).getD a ⟨⟨0, 0⟩, "", 0, 0⟩).votes) := by
  have hsortlen : (seats.mergeSort fun a b => seatOrder a b).length = seats.length :=
    List.length_mergeSort seats
  have hmapseat : (bindCandidates seats cands).map (fun b => b.seat) =
      seats.mergeSort fun a b => seatOrder a b :=
    bindGo_map_seat cands _ 0
  have hvotes : ∀ a b, a < b → b < cands.length →
      (cands.getD b ⟨"", 0⟩).votes ≤ (cands.getD a ⟨"", 0⟩).votes := by
    intro a b hab hb
    have ha : a < cands.length := by omega
    rw [List.getD_eq_getElem?_getD, List.getD_eq_getElem?_getD,
      List.getElem?_eq_getElem ha, List.getElem?_eq_getElem hb]
    exact (List.pairwise_iff_get.mp hc ⟨a, ha⟩ ⟨b, hb⟩ hab)
  refine ⟨?_, ?_, ?_, ?_, ?_⟩
  · rw [hmapseat]
    exact List.mergeSort_perm seats _
  · rw [hmapseat]
    have hsorted : (seats.mergeSort fun a b => seatOrder a b).Pairwise
        (fun a b : PartySeat => seatOrder a b = true) :=
      List.sorted_mergeSort
        (show ∀ a b c : PartySeat, seatOrder a b = true → seatOrder b c = true →
            seatOrder a c = true by
          intro a b c h1 h2
          rw [seatOrder_true_iff] at h1 h2 ⊢
          rcases h1 with h1 | ⟨e1, d1⟩ <;> rcases h2 with h2 | ⟨e2, d2⟩
          · exact Or.inl (by omega)
          · exact Or.inl (by omega)
          · exact Or.inl (by omega)
          · exact Or.inr ⟨by omega, le_trans d1 d2⟩)
        (show ∀ a b : PartySeat, (seatOrder a b || seatOrder b a) = true by
          intro a b
          rw [Bool.or_eq_true, seatOrder_true_iff, seatOrder_true_iff]
          by_cases h : a.row = b.row
          · rcases le_total |a.thetaPi - 1/2| |b.thetaPi - 1/2| with hle | hle
            · exact Or.inl (Or.inr ⟨h, hle⟩)
            · exact Or.inr (Or.inr ⟨h.symm, hle⟩)
          · rcases Nat.lt_or_ge a.row b.row with hlt | hge
            · exact Or.inr (Or.inl hlt)
            · exact Or.inl (Or.inl (by omega)))
        seats
    exact List.Pairwise.imp (fun h => (seatOrder_true_iff _ _).mp h) hsorted
  · simp only [bindCandidates]
    rw [bindGo_map_rank cands _ 0, hsortlen]
  · intro j hj
    simp only [bindCandidates]
    rw [bindGo_getD cands ⟨0, 0⟩ ⟨⟨0, 0⟩, "", 0, 0⟩ ⟨"", 0⟩
      _ 0 j (by rw [hsortlen]; omega) (by omega)]
    simp
  · intro a b hab hb
    simp only [bindCandidates]
    rw [bindGo_getD cands ⟨0, 0⟩ ⟨⟨0, 0⟩, "", 0, 0⟩ ⟨"", 0⟩
      _ 0 a (by rw [hsortlen]; omega) (by omega),
      bindGo_getD cands ⟨0, 0⟩ ⟨⟨0, 0⟩, "", 0, 0⟩ ⟨"", 0⟩
      _ 0 b (by rw [hsortlen]; omega) (by omega)]
    simpa using hvotes a b hab (by omega)

/-- Witness for `candidate_binding` on a 3-seat block with three candidates in
descending vote order. -/
theorem candidate_binding_witness :
    ([(⟨"a", 100⟩ : Candidate), ⟨"b", 50⟩, ⟨"c", 25⟩]).Pairwise
      (fun a b => b.votes ≤ a.votes) ∧
    ([(⟨0, 1/2⟩ : PartySeat), ⟨1, 1/2⟩, ⟨1, 1/4⟩]).length ≤ 3 ∧
    (bindCandidates [⟨0, 1/2⟩, ⟨1, 1/2⟩, ⟨1, 1/4⟩]
      [⟨"a", 100⟩, ⟨"b", 50⟩, ⟨"c", 25⟩]).map (fun b => b.rank) =
      List.range' 1 3 :=
  ⟨by decide, by decide,
   (candidate_binding [⟨0, 1/2⟩, ⟨1, 1/2⟩, ⟨1, 1/4⟩]
     [⟨"a", 100⟩, ⟨"b", 50⟩, ⟨"c", 25⟩] (by decide) (by decide)).2.2.1⟩

set_option maxRecDepth 4000 in
/-- Claim C4 (code bug): the break extraction of `jenksNaturalBreaks`
backtracks from matrix row `dataLength`, but the DP loop
(`for (l = 0; l < dataLength; l++)`) only ever writes rows `0 .. dataLength-1`,
so `lowerClassLimit[dataLength][j]` is still 0: the first marker reads
`sortedData[-1]` (`undefined`) and `k` becomes `-1`, and the next iteration's
`lowerClassLimit[-1][j]` throws a `TypeError`.  Hence for any non-empty data
with (clamped) `classCount ≥ 2` the function throws instead of returning
breaks, and for `classCount = 1` it returns `[undefined]` — never a
non-decreasing break list of length `min(classCount, distinctValueCount)`.
Evaluated at `[1,2]`/2, the spec's own example `[1,2,3,10,11,12,50,51,52]`/3,
`[1,2]`/1, and `[]`/5. -/
theorem jenks_throws :
    jenksNaturalBreaks [1, 2] 2 = Except.error "TypeError" ∧
    jenksNaturalBreaks [1, 2, 3, 10, 11, 12, 50, 51, 52] 3 =
      Except.error "TypeError" ∧
    jenksNaturalBreaks [1, 2] 1 = Except.ok [none] ∧
    jenksNaturalBreaks [] 5 = Except.ok [] := by
  with_unfolding_all decide
